import Mathlib

/-!
Verification development for the vcs2git reconciliation and rollback engine.

The Rust sources are shallowly embedded: pure classification and selection
logic become Lean functions over `Finset`s; the stateful executor and
rollback passes become explicit state-passing functions over an abstract
`HostState`; external VCS / filesystem calls whose success depends on the
environment are parameterised by explicit outcome records.
-/

/-- A repository path, as a list of components (Rust `Path` components;
`Path::starts_with` compares whole components, which is `List.isPrefixOf`
here). -/
abbrev GPath := List String

/-! ## Classifier (src/main.rs, `classify_submodules`)

The Rust function builds three path-sorted vectors from hash-set
differences/intersections; the claims are about the underlying path sets,
which we model directly as `Finset`s. -/

/-- The three output classes of `classify_submodules`, by path set. -/
structure ClassifiedSets where
  newPaths : Finset GPath
  updatedPaths : Finset GPath
  removedPaths : Finset GPath

/-- `classify_submodules` (src/main.rs lines 334-370): `new` is
desired-minus-registered, `updated` is the intersection, `removed` is
registered-minus-desired restricted to paths starting with the prefix. -/
def classify_submodules (selected_paths submod_paths : Finset GPath) (pfx : GPath) :
    ClassifiedSets where
  newPaths := selected_paths \ submod_paths
  updatedPaths := selected_paths ∩ submod_paths
  removedPaths := (submod_paths \ selected_paths).filter (fun p => pfx.isPrefixOf p = true)

/-! ## Selector (src/main.rs lines 72-109, src/utils.rs) -/

/-- Errors produced by the selection phase, carrying the offending sets as
the Rust `bail!` messages do. -/
inductive SelectionError where
  /-- `check_subset` failed: these entries are not declared keys. -/
  | notFound (missing : Finset GPath)
  /-- `check_disjoint` failed: these entries are both selected and skipped. -/
  | conflict (overlap : Finset GPath)
deriving DecidableEq

/-- `check_subset` (src/utils.rs lines 5-15): errors with the whole
difference `subset \ all`, i.e. every unknown entry at once. -/
def check_subset (all sub : Finset GPath) : Except SelectionError Unit :=
  if sub ⊆ all then Except.ok () else Except.error (.notFound (sub \ all))

/-- `check_disjoint` (src/utils.rs lines 18-28): errors with the whole
intersection. -/
def check_disjoint (lset rset : Finset GPath) : Except SelectionError Unit :=
  if lset ∩ rset = ∅ then Except.ok () else Except.error (.conflict (lset ∩ rset))

/-- The selection logic of `main` (src/main.rs lines 72-109), at the level
of suffix sets: validate `ignore` against the declared keys, then either
validate `only` (subset of keys, disjoint from `ignore`) or default to all
keys minus `ignore`; the result is the selection minus the skipped set. -/
def selectRepos (allKeys : Finset GPath) (only ignore : Option (Finset GPath)) :
    Except SelectionError (Finset GPath) := do
  let skipped := ignore.getD ∅
  check_subset allKeys skipped
  let selected ← match only with
    | some names => do
        check_subset allKeys names
        check_disjoint names skipped
        pure names
    | none => pure (allKeys \ skipped)
  pure (selected \ skipped)

/-! ## Version resolution with fallback (src/git_ops.rs lines 26-61) -/

/-- The subset of `git2::ErrorClass` values the program distinguishes. -/
inductive GitErrorClass where
  | reference
  | repository
  | checkout
  | net
  | config
  | generic
deriving DecidableEq, Repr

/-- The subset of `git2::ErrorCode` values the program distinguishes. -/
inductive GitErrorCode where
  | notFound
  | genericError
  | auth
  | unbornBranch
deriving DecidableEq, Repr

/-- A `git2::Error`, reduced to the class/code discriminants the control
flow inspects. -/
structure GitError where
  cls : GitErrorClass
  code : GitErrorCode
deriving DecidableEq, Repr

/-- The environment a nested repository presents to `checkout_to_spec`:
the outcome of `revparse_ext` per spec string (object id and optional
reference name), and of the subsequent checkout / set-head calls. -/
structure SubrepoEnv where
  revparse : String → Except GitError (Nat × Option String)
  checkoutTree : Nat → Option GitError
  setHead : String → Option GitError
  setHeadDetached : Nat → Option GitError

/-- `checkout_to_spec` (src/git_ops.rs lines 26-38): revparse the spec,
optionally check out the tree, then set head attached (when a reference
resolved) or detached (at the object id). -/
def checkout_to_spec (repo : SubrepoEnv) (spec : String) (checkout : Bool) :
    Except GitError Unit := do
  let (obj, refName) ← repo.revparse spec
  if checkout then
    match repo.checkoutTree obj with
    | some e => throw e
    | none => pure ()
  match refName with
  | some r =>
      match repo.setHead r with
      | some e => throw e
      | none => pure ()
  | none =>
      match repo.setHeadDetached obj with
      | some e => throw e
      | none => pure ()

/-- `checkout_to_version` (src/git_ops.rs lines 41-61): try the version
directly; retry as `origin/<version>` exactly when the failure has class
`Reference` and code `NotFound`; propagate any other error unchanged. -/
def checkout_to_version (repo : SubrepoEnv) (version : String) (checkout : Bool) :
    Except GitError Unit :=
  match checkout_to_spec repo version checkout with
  | .ok () => .ok ()
  | .error err =>
      if err.cls = GitErrorClass.reference ∧ err.code = GitErrorCode.notFound then
        checkout_to_spec repo ("origin/" ++ version) checkout
      else .error err

/-! ## .gitmodules text editing (src/git_ops.rs lines 182-299)

Rust `str` operations (`trim`, `starts_with`, `ends_with`, `contains`) are
modelled on the character lists underlying `String`. -/

/-- ASCII whitespace as `str::trim` strips it for the inputs at hand. -/
def isWhite (c : Char) : Bool := c = ' ' || c = '\t' || c = '\n' || c = '\r'

/-- `str::trim`: drop whitespace from both ends. -/
def strTrim (s : String) : String :=
  ⟨(((s.data.dropWhile isWhite).reverse.dropWhile isWhite).reverse)⟩

/-- `str::starts_with`. -/
def strStartsWith (s pat : String) : Bool := pat.data.isPrefixOf s.data

/-- `str::ends_with`. -/
def strEndsWith (s pat : String) : Bool := pat.data.isSuffixOf s.data

/-- Substring search on character lists (`str::contains`). -/
def listInfix (pat : List Char) : List Char → Bool
  | [] => pat.isEmpty
  | c :: rest => pat.isPrefixOf (c :: rest) || listInfix pat rest

/-- `str::contains` with a string pattern. -/
def strContains (s pat : String) : Bool := listInfix pat.data s.data

/-- The header-matching test of `manually_clean_gitmodules`
(src/git_ops.rs lines 269-271): the trimmed line is a `[submodule ...]`
header and contains the target path as a substring. -/
def matchesSubmoduleHeader (pathStr line : String) : Bool :=
  strStartsWith (strTrim line) "[submodule " && strEndsWith (strTrim line) "]"
    && strContains (strTrim line) pathStr

/-- The line loop of `manually_clean_gitmodules` (src/git_ops.rs lines
265-285): a matching header starts skipping; a later line starting with
`[` ends the skip; kept lines are emitted in order. The `Bool` argument is
the `in_submodule_section` flag. -/
def manually_clean_lines (pathStr : String) : List String → Bool → List String
  | [], _ => []
  | l :: rest, inSec =>
    if matchesSubmoduleHeader pathStr l then
      manually_clean_lines pathStr rest true
    else
      let inSec2 := if inSec && strStartsWith (strTrim l) "[" then false else inSec
      if inSec2 then manually_clean_lines pathStr rest inSec2
      else l :: manually_clean_lines pathStr rest inSec2

/-- The exact header `update_gitmodules_file` matches for a name
(src/git_ops.rs lines 203-204). -/
def sectionHeaderFor (n : String) : String := "[submodule \"" ++ n ++ "\"]"

/-- The line loop of `update_gitmodules_file` (src/git_ops.rs lines
206-222): drop the section whose trimmed header equals the name header or
the path header; also return whether a matching section was found. -/
def removeSectionLines (nameHdr altHdr : String) :
    List String → Bool → List String × Bool
  | [], _ => ([], false)
  | l :: rest, inTgt =>
    if strTrim l = nameHdr || strTrim l = altHdr then
      let r := removeSectionLines nameHdr altHdr rest true
      (r.1, true)
    else
      let inTgt2 := if inTgt && strStartsWith (strTrim l) "[" then false else inTgt
      let r := removeSectionLines nameHdr altHdr rest inTgt2
      (if inTgt2 then r.1 else l :: r.1, r.2)

/-- Whether the joined-and-trimmed content of the remaining lines is empty
(src/git_ops.rs lines 229-232): true exactly when every line is
whitespace. -/
def contentEmpty (ls : List String) : Bool := ls.all (fun l => strTrim l = "")

/-! ## Host repository state model

The observable host state the run mutates: the registered submodules
(config plus `.gitmodules` registration, as listed by
`Repository::submodules`), the `.gitmodules` file as its list of section
names (`none` = file absent; the file's own index entry is folded into
this field), the host index's submodule gitlink entries, and the
working-tree directories of nested repositories. `.git/modules` control
directories carry no claim-relevant observation and are not tracked. -/

/-- One registered submodule: stable name, path, recorded URL, and the
commit its working tree is checked out at. -/
structure Submod where
  name : String
  path : String
  url : String
  commit : Nat
deriving DecidableEq, Repr

/-- The host repository state. -/
structure HostState where
  subs : List Submod
  gitmodules : Option (List String)
  indexPaths : List String
  worktrees : List String
deriving DecidableEq, Repr

/-- The host repository with nothing registered and no `.gitmodules`. -/
def emptyHostState : HostState := ⟨[], none, [], []⟩

/-- `git index add`: set-semantics staging of a path. -/
def stageIndex (st : HostState) (p : String) : HostState :=
  if st.indexPaths.contains p then st
  else { st with indexPaths := st.indexPaths ++ [p] }

/-- Effect of `Repository::submodule(url, path, true)` (src/main.rs line
232): registers the submodule (name defaulting to its path), appends its
`.gitmodules` section, and sets up its working-tree directory. -/
def registerSubmodule (st : HostState) (url p : String) : HostState :=
  { st with
    subs := st.subs ++ [⟨p, p, url, 0⟩],
    gitmodules := some (st.gitmodules.getD [] ++ [p]),
    worktrees := st.worktrees ++ [p] }

/-- Effect of a successful checkout inside the nested repository at path
`p`: its working-tree commit becomes the resolved commit. -/
def setSubCommit (st : HostState) (p : String) (c : Nat) : HostState :=
  { st with subs := st.subs.map fun s => if s.path = p then { s with commit := c } else s }

/-- Effect of a successful checkout inside the nested repository named
`n`. -/
def setSubCommitByName (st : HostState) (n : String) (c : Nat) : HostState :=
  { st with subs := st.subs.map fun s => if s.name = n then { s with commit := c } else s }

/-- Effect of `submodule_set_url` (src/main.rs line 279): rewrite the
recorded URL of the submodule named `n`. -/
def setSubUrl (st : HostState) (n u : String) : HostState :=
  { st with subs := st.subs.map fun s => if s.name = n then { s with url := u } else s }

/-- Effect of `add_finalize` for the submodule at path `p`: stage the
path in the host index. -/
def finalizeAdd (st : HostState) (p : String) : HostState := stageIndex st p

/-- `add_finalize` on an update, which stages the path of the submodule
named `n`. -/
def finalizeByName (st : HostState) (n : String) : HostState :=
  match st.subs.find? (fun s => s.name = n) with
  | some s => stageIndex st s.path
  | none => st

/-- Which call of the add sequence (src/main.rs lines 231-252) fails, if
any; the payload is the underlying error, as an id. -/
inductive AddOutcome where
  | ok
  | failRegister (e : Nat)
  | failOpen (e : Nat)
  | failFetch (e : Nat)
  | failCheckout (e : Nat)
  | failFinalize (e : Nat)
deriving DecidableEq, Repr

/-- One entry of the add list: the spec's path and URL, the commit the
version would resolve to, and the environmental outcome of the add. -/
structure AddOp where
  path : String
  url : String
  newCommit : Nat
  outcome : AddOutcome
deriving DecidableEq, Repr

/-- State effect and error of one add (the closure at src/main.rs lines
231-252): registration happens first and persists across any later
failure; the checkout commit lands from `failFinalize` on; `add_finalize`
stages the path only on full success. -/
def applyAddOp (st : HostState) (op : AddOp) : HostState × Option Nat :=
  match op.outcome with
  | .failRegister e => (st, some e)
  | .failOpen e => (registerSubmodule st op.url op.path, some e)
  | .failFetch e => (registerSubmodule st op.url op.path, some e)
  | .failCheckout e => (registerSubmodule st op.url op.path, some e)
  | .failFinalize e =>
      (setSubCommit (registerSubmodule st op.url op.path) op.path op.newCommit, some e)
  | .ok =>
      (finalizeAdd (setSubCommit (registerSubmodule st op.url op.path) op.path op.newCommit)
        op.path, none)

/-- The add loop (src/main.rs lines 220-266): under dry-run each entry is
only reported; otherwise the path is pushed onto the completed-additions
list on success and on failure alike, and the first failure aborts the
loop. Returns the state, the completed-additions pushed by this loop (in
push order), and the error if any. -/
def processAdds (dryRun : Bool) : HostState → List AddOp → HostState × List String × Option Nat
  | st, [] => (st, [], none)
  | st, op :: rest =>
    if dryRun then processAdds dryRun st rest
    else
      match applyAddOp st op with
      | (st1, none) =>
          let r := processAdds dryRun st1 rest
          (r.1, op.path :: r.2.1, r.2.2)
      | (st1, some e) => (st1, [op.path], some e)

/-- Which call of the update sequence (src/main.rs lines 278-291) fails,
if any. -/
inductive UpdateOutcome where
  | ok
  | failSetUrl (e : Nat)
  | failOpen (e : Nat)
  | failFetch (e : Nat)
  | failCheckout (e : Nat)
  | failFinalize (e : Nat)
deriving DecidableEq, Repr

/-- One entry of the update list: the registered name, the spec's URL and
resolved commit, and the environmental outcome. -/
structure UpdateOp where
  name : String
  url : String
  newCommit : Nat
  outcome : UpdateOutcome
deriving DecidableEq, Repr

/-- State effect and error of one update: the URL rewrite happens first
and persists across any later failure; the checkout commit lands from
`failFinalize` on; finalize stages the submodule's path. -/
def applyUpdateOp (st : HostState) (op : UpdateOp) : HostState × Option Nat :=
  match op.outcome with
  | .failSetUrl e => (st, some e)
  | .failOpen e => (setSubUrl st op.name op.url, some e)
  | .failFetch e => (setSubUrl st op.name op.url, some e)
  | .failCheckout e => (setSubUrl st op.name op.url, some e)
  | .failFinalize e =>
      (setSubCommitByName (setSubUrl st op.name op.url) op.name op.newCommit, some e)
  | .ok =>
      (finalizeByName (setSubCommitByName (setSubUrl st op.name op.url) op.name op.newCommit)
        op.name, none)

/-- The update loop (src/main.rs lines 269-302): dry-run only reports;
the first failure aborts. -/
def processUpdates (dryRun : Bool) : HostState → List UpdateOp → HostState × Option Nat
  | st, [] => (st, none)
  | st, op :: rest =>
    if dryRun then processUpdates dryRun st rest
    else
      match applyUpdateOp st op with
      | (st1, none) => processUpdates dryRun st1 rest
      | (st1, some e) => (st1, some e)

/-- Removal of a section from the `.gitmodules` model by exact name or
path match, deleting the file when no content remains
(`update_gitmodules_file`, src/git_ops.rs lines 182-251, at
section-name granularity). -/
def removeGitmodulesSection (gm : Option (List String)) (nm p : String) :
    Option (List String) :=
  match gm with
  | none => none
  | some secs =>
      let remaining := secs.filter fun s => !(s = nm : Bool) && !(s = p : Bool)
      if remaining.isEmpty then none else some remaining

/-- One entry of the remove list. `fails = some e` models a failing
`remove_submodule` call; the failure is placed at the initial submodule
lookup, before any teardown step — no theorem exercises the state left by
a partially-completed teardown. -/
structure RemoveOp where
  path : String
  fails : Option Nat
deriving DecidableEq, Repr

/-- State effect and error of `remove_submodule` (src/git_ops.rs lines
64-114): deregister, unstage the path, drop the `.gitmodules` section,
delete the working tree. -/
def applyRemoveOp (st : HostState) (op : RemoveOp) : HostState × Option Nat :=
  match op.fails with
  | some e => (st, some e)
  | none =>
      match st.subs.find? (fun s => s.path = op.path) with
      | none => (st, some 0)
      | some s =>
          ({ subs := st.subs.filter fun x => !(x.path = op.path : Bool),
             gitmodules := removeGitmodulesSection st.gitmodules s.name op.path,
             indexPaths := st.indexPaths.filter fun q => !(q = op.path : Bool),
             worktrees := st.worktrees.filter fun w => !(w = op.path : Bool) }, none)

/-- The remove loop (src/main.rs lines 311-323): dry-run only reports;
the first failure aborts. -/
def processRemoves (dryRun : Bool) : HostState → List RemoveOp → HostState × Option Nat
  | st, [] => (st, none)
  | st, op :: rest =>
    if dryRun then processRemoves dryRun st rest
    else
      match applyRemoveOp st op with
      | (st1, none) => processRemoves dryRun st1 rest
      | (st1, some e) => (st1, some e)

/-- The run flags `process_submodule_operations` consumes (src/cli.rs). -/
structure OptsModel where
  dryRun : Bool
  skipExisting : Bool
  syncSelection : Bool
deriving DecidableEq, Repr

/-- The classified operation lists, with their environmental outcomes. -/
structure OpsScript where
  adds : List AddOp
  updates : List UpdateOp
  removes : List RemoveOp
deriving DecidableEq, Repr

/-- `process_submodule_operations` (src/main.rs lines 210-327): adds,
then updates (unless `--skip-existing`), then removes (only with
`--sync-selection`); the first error aborts and is returned together with
the completed-additions list accumulated so far. -/
def process_submodule_operations (st : HostState) (sc : OpsScript) (opts : OptsModel) :
    HostState × List String × Option Nat :=
  let r1 := processAdds opts.dryRun st sc.adds
  match r1.2.2 with
  | some e => (r1.1, r1.2.1, some e)
  | none =>
      let r2 := if !opts.skipExisting then processUpdates opts.dryRun r1.1 sc.updates
                else (r1.1, none)
      match r2.2 with
      | some e => (r2.1, r1.2.1, some e)
      | none =>
          let r3 := if opts.syncSelection then processRemoves opts.dryRun r2.1 sc.removes
                    else (r2.1, none)
          (r3.1, r1.2.1, r3.2)

/-! ## Snapshot and rollback (src/state.rs, src/main.rs lines 126-196) -/

/-- One snapshot entry captured by `SubmoduleStateTracker::new`. -/
structure SnapEntry where
  name : String
  path : String
  commit : Nat
  url : String
deriving DecidableEq, Repr

/-- `SubmoduleStateTracker::new` (src/state.rs lines 24-49): one entry
per registered submodule. -/
def captureSnapshot (st : HostState) : List SnapEntry :=
  st.subs.map fun s => ⟨s.name, s.path, s.commit, s.url⟩

/-- Restoring one snapshot entry (src/state.rs lines 58-69): check out
the snapshotted commit in the nested repository of that name and re-stage
its path. The recorded URL is not consulted. -/
def restoreEntry (st : HostState) (e : SnapEntry) : HostState :=
  stageIndex (setSubCommitByName st e.name e.commit) e.path

/-- Whether `find_submodule` succeeds for a snapshot entry's name. -/
def canRestore (st : HostState) (e : SnapEntry) : Bool :=
  (st.subs.find? fun s => s.name = e.name).isSome

/-- `SubmoduleStateTracker::rollback` (src/state.rs lines 52-74): restore
each entry in turn; every per-entry call is chained with `?`, so the
first entry whose submodule cannot be resolved aborts the loop and
returns that error (id 0 here), leaving later entries untouched. -/
def trackerRollback : HostState → List SnapEntry → HostState × Option Nat
  | st, [] => (st, none)
  | st, e :: rest =>
    match st.subs.find? (fun s => s.name = e.name) with
    | none => (st, some 0)
    | some _ => trackerRollback (restoreEntry st e) rest

/-- State effect of `remove_submodule_rollback` (src/git_ops.rs lines
117-179), assuming the filesystem calls themselves succeed: look up the
name by path, strip the registration and config, unstage the path, drop
the `.gitmodules` section by name or path, and delete the working tree. -/
def remove_submodule_rollback_state (st : HostState) (p : String) : HostState :=
  let nm := ((st.subs.find? fun s => s.path = p).map Submod.name).getD p
  { subs := st.subs.filter fun s => !(s.path = p : Bool),
    gitmodules := removeGitmodulesSection st.gitmodules nm p,
    indexPaths := st.indexPaths.filter fun q => !(q = p : Bool),
    worktrees := st.worktrees.filter fun w => !(w = p : Bool) }

/-- The outcome `main` reports for a run. -/
inductive RunResult where
  | ok
  | dryRunFailed (e : Nat)
  | rolledBack (e : Nat)
deriving DecidableEq, Repr

/-- The run core of `main` (src/main.rs lines 126-196): capture the
snapshot, execute the operations, and on a non-dry-run failure roll back:
remove each completed addition, delete `.gitmodules` if no submodules
remain, restore the snapshot (tracker errors are only logged), and report
the original error. -/
def runMain (pre : HostState) (sc : OpsScript) (opts : OptsModel) :
    HostState × RunResult :=
  let snapshot := captureSnapshot pre
  let r := process_submodule_operations pre sc opts
  match r.2.2 with
  | none => (r.1, .ok)
  | some e =>
      if opts.dryRun then (r.1, .dryRunFailed e)
      else
        let st1 := r.2.1.foldl remove_submodule_rollback_state r.1
        let st2 := match st1.gitmodules with
          | some _ => if st1.subs.isEmpty then { st1 with gitmodules := none } else st1
          | none => st1
        ((trackerRollback st2 snapshot).1, .rolledBack e)

/-! ## Error propagation of the rollback phase (src/main.rs lines 165-196)

A second view of `main`'s failure handler, this time at the level of
which error value reaches the caller. The per-path
`remove_submodule_rollback` failures and the tracker failure are logged
and swallowed, but the `.gitmodules` cleanup uses `?` on
`Repository::submodules` and on `fs::remove_file`. -/

/-- Environmental outcomes of the calls inside the rollback phase. Error
values are ids. The tracker outcome is recorded even though the handler
only logs it. -/
structure CleanupEnv where
  gitmodulesExists : Bool
  listSubmodulesErr : Option Nat
  submodulesEmpty : Bool
  removeFileErr : Option Nat
  trackerErr : Option Nat
deriving DecidableEq, Repr

/-- The error `main` surfaces on a failed run. -/
inductive MainFailure where
  /-- `bail!("Operation failed and was rolled back: e")` — wraps the
  original executor error. -/
  | rolledBack (orig : Nat)
  /-- dry-run `bail!("Operation failed: e")` — wraps the original. -/
  | plainFailed (orig : Nat)
  /-- a `?` inside the rollback block propagated a cleanup error,
  replacing the original. -/
  | cleanupError (e : Nat)
deriving DecidableEq, Repr

/-- Whether the surfaced error carries the original executor error. -/
def mentionsOriginal (f : MainFailure) (orig : Nat) : Bool :=
  match f with
  | .rolledBack e => e = orig
  | .plainFailed e => e = orig
  | .cleanupError _ => false

/-- The failure handler of `main` (src/main.rs lines 165-196) as an
error-value function: per-path removal errors are warnings; if
`.gitmodules` exists, `submodules()?` and `fs::remove_file(...)?` can
propagate a cleanup error in place of the original; the tracker error is
only logged; otherwise the original error is wrapped and reported. -/
def handleOperationFailure (orig : Nat) (dryRun : Bool) (env : CleanupEnv) : MainFailure :=
  if dryRun then .plainFailed orig
  else
    if env.gitmodulesExists then
      match env.listSubmodulesErr with
      | some e => .cleanupError e
      | none =>
          if env.submodulesEmpty then
            match env.removeFileErr with
            | some e => .cleanupError e
            | none => .rolledBack orig
          else .rolledBack orig
    else .rolledBack orig

/-! ## `remove_submodule_rollback` control flow (src/git_ops.rs 117-179)

A finer view for the reachability of error exits: every filesystem /
libgit2 call outcome is an explicit environment field. Error values are
ids; the two `bail!` sites of `update_gitmodules_file` are ids 100 and
101. -/

/-- Environmental outcomes for one `remove_submodule_rollback` call. -/
structure FsEnv where
  /-- `find_submodule`: error, or the submodule with its optional name. -/
  findSubmodule : Except Nat (Option String)
  /-- whether `.gitmodules` exists. -/
  gitmodulesExists : Bool
  /-- `fs::read_to_string(".gitmodules")`, as lines. -/
  readLines : Except Nat (List String)
  /-- `fs::write(".gitmodules", ...)`. -/
  writeErr : Option Nat
  /-- `fs::remove_file(".gitmodules")`. -/
  removeFileErr : Option Nat
  /-- `repo.index()` where chained with `?`. -/
  indexOpenErr : Option Nat
  /-- `index.remove_path(".gitmodules")` where chained with `?`. -/
  indexRemoveErr : Option Nat
  /-- `index.add_path(".gitmodules")` where chained with `?`. -/
  indexAddErr : Option Nat
  /-- `index.write()` where chained with `?`. -/
  indexWriteErr : Option Nat
  /-- whether `.git/modules/<name>` exists. -/
  modulesDirExists : Bool
  /-- whether the working-tree directory exists. -/
  worktreeExists : Bool
deriving Repr

/-- Helper: first error among a list of optional errors, else ok. -/
def firstErr (es : List (Option Nat)) : Except Nat Unit :=
  match es with
  | [] => .ok ()
  | some e :: _ => .error e
  | none :: rest => firstErr rest

/-- `update_gitmodules_file` (src/git_ops.rs lines 182-251): missing file
is ok unless `must_exist`; otherwise read, drop the exact-match section,
error if `must_exist` and it was absent, then either delete the emptied
file and unstage it, or write it back and restage it. -/
def update_gitmodules_file (env : FsEnv) (p nm : String) (mustExist : Bool) :
    Except Nat Unit :=
  if !env.gitmodulesExists then
    if mustExist then .error 100 else .ok ()
  else
    match env.readLines with
    | .error e => .error e
    | .ok lines =>
        let r := removeSectionLines (sectionHeaderFor nm) (sectionHeaderFor p) lines false
        if mustExist && !r.2 then .error 101
        else if contentEmpty r.1 then
          firstErr [env.removeFileErr, env.indexOpenErr, env.indexRemoveErr,
            env.indexWriteErr]
        else
          firstErr [env.writeErr, env.indexOpenErr, env.indexAddErr, env.indexWriteErr]

/-- `manually_clean_gitmodules` (src/git_ops.rs lines 254-299): missing
file is ok; otherwise read, drop substring-matching sections, then delete
the emptied file (index errors swallowed) or write it back. -/
def manually_clean_gitmodules (env : FsEnv) (p : String) : Except Nat Unit :=
  if !env.gitmodulesExists then .ok ()
  else
    match env.readLines with
    | .error e => .error e
    | .ok lines =>
        let kept := manually_clean_lines p lines false
        if contentEmpty kept then
          firstErr [env.removeFileErr]
        else
          firstErr [env.writeErr]

/-- `remove_submodule_rollback` (src/git_ops.rs lines 117-179): config
and index cleanup errors are swallowed; the only error exit is the
`.gitmodules` step — `update_gitmodules_file` with `must_exist = false`,
falling back to `manually_clean_gitmodules` chained with `?`; the modules
directory and working-tree removals ignore their results. -/
def remove_submodule_rollback (env : FsEnv) (p : String) : Except Nat Unit :=
  let nameOpt := match env.findSubmodule with
    | .ok n => n
    | .error _ => none
  match update_gitmodules_file env p (nameOpt.getD p) false with
  | .ok () => .ok ()
  | .error _ =>
      match manually_clean_gitmodules env p with
      | .error e => .error e
      | .ok () => .ok ()

/-! ## Concrete inputs for witnesses and counterexamples -/

/-- A nested repository where only `origin/main` resolves; every other
spec fails with the reference-not-found error. -/
def demoSubrepo : SubrepoEnv where
  revparse := fun s =>
    if s = "origin/main" then .ok (7, some "refs/remotes/origin/main")
    else .error ⟨.reference, .notFound⟩
  checkoutTree := fun _ => none
  setHead := fun _ => none
  setHeadDetached := fun _ => none

/-- A nested repository where resolution fails with a network error. -/
def demoSubrepoNetFail : SubrepoEnv where
  revparse := fun _ => .error ⟨.net, .genericError⟩
  checkoutTree := fun _ => none
  setHead := fun _ => none
  setHeadDetached := fun _ => none

/-- A host with one registered submodule `a` at commit 5 with URL `u1`. -/
def demoHostOneSub : HostState :=
  ⟨[⟨"a", "a", "u1", 5⟩], some ["a"], ["a"], ["a"]⟩

/-- A run script whose only operation updates `a` to URL `u2` and fails
at the fetch. -/
def demoFailingUpdateScript : OpsScript :=
  ⟨[], [⟨"a", "u2", 5, .failFetch 1⟩], []⟩

/-- Default flags: real run, update existing, no selection sync. -/
def demoOpts : OptsModel := ⟨false, false, false⟩

/-- An add list whose second entry fails at the fetch. -/
def demoFailingAdds : List AddOp :=
  [⟨"p1", "url1", 3, .ok⟩, ⟨"p2", "url2", 4, .failFetch 2⟩]

/-- A host whose only registered submodule is named `b` (at commit 9),
so restoring a snapshot entry named `a` fails at `find_submodule`. -/
def demoHostOnlyB : HostState :=
  ⟨[⟨"b", "b", "u", 9⟩], some ["b"], [], ["b"]⟩

/-- A two-entry snapshot whose first entry (`a`) cannot be restored in
`demoHostOnlyB` and whose second (`b`) records commit 5. -/
def demoSnapshotAB : List SnapEntry :=
  [⟨"a", "a", 5, "u"⟩, ⟨"b", "b", 5, "u"⟩]

/-- A cleanup environment where listing submodules fails with error 2. -/
def demoCleanupListFails : CleanupEnv :=
  ⟨true, some 2, true, none, none⟩

/-- A cleanup environment where every cleanup call succeeds. -/
def demoCleanupOk : CleanupEnv :=
  ⟨true, none, true, none, some 7⟩

/-- An environment for `remove_submodule_rollback` where nothing related
to the path exists: no registration, no `.gitmodules`, no modules
directory, no working tree. -/
def demoFsEnvNothing : FsEnv :=
  ⟨.error 5, false, .ok [], none, none, none, none, none, none, false, false⟩

/-- Every artifact of the host state is keyed by a path in `c`, and the
`.gitmodules` file, when present, is a nonempty section list within `c`.
This is the invariant the add loop maintains with `c` the
completed-additions list, starting from the empty host. -/
def artifactsWithin (st : HostState) (c : List String) : Prop :=
  (∀ s ∈ st.subs, s.path ∈ c) ∧
  (st.gitmodules = none ∨
    ∃ secs, st.gitmodules = some secs ∧ secs ≠ [] ∧ ∀ g ∈ secs, g ∈ c) ∧
  (∀ q ∈ st.indexPaths, q ∈ c) ∧
  (∀ w ∈ st.worktrees, w ∈ c)

/-- Whether an add outcome is a failure occurring after the
`Repository::submodule` registration call succeeded. -/
def failsAfterRegistration (o : AddOutcome) : Bool :=
  match o with
  | .failOpen _ => true
  | .failFetch _ => true
  | .failCheckout _ => true
  | .failFinalize _ => true
  | .ok => false
  | .failRegister _ => false

/-- Dry-run flags. -/
def demoDryOpts : OptsModel := ⟨true, false, false⟩

/-- The snapshot `demoSnapshotAB` with its entries in the other order:
`b` restorable first, then the failing `a`. -/
def demoSnapshotBA : List SnapEntry :=
  [⟨"b", "b", 5, "u"⟩, ⟨"a", "a", 5, "u"⟩]

/-- Declared repository keys for the selector witness. -/
def demoKeys : Finset GPath := {["a"], ["b"]}

/-- An `--only` filter naming a declared key. -/
def demoOnly : Finset GPath := {["a"]}

/-- An `--only` filter naming two undeclared keys. -/
def demoBadOnly : Finset GPath := {["c"], ["d"]}

/-- A `.gitmodules` content with sections `foo`, `foobar` and `zig`:
removing path `foo` also matches the unrelated `foobar` header. -/
def demoGitmodulesLines : List String :=
  ["[submodule \"foo\"]", "\tpath = foo", "\turl = u1",
   "[submodule \"foobar\"]", "\tpath = foobar", "\turl = u2",
   "[submodule \"zig\"]", "\tpath = zig", "\turl = u3"]

/-! ## Theorems -/

/-- C4: the Classifier's three outputs are pairwise disjoint and their
union is the desired set plus the registered paths under the prefix. -/
theorem classify_partition (sel sub : Finset GPath) (pfx : GPath) :
    Disjoint (classify_submodules sel sub pfx).newPaths
      (classify_submodules sel sub pfx).updatedPaths ∧
    Disjoint (classify_submodules sel sub pfx).newPaths
      (classify_submodules sel sub pfx).removedPaths ∧
    Disjoint (classify_submodules sel sub pfx).updatedPaths
      (classify_submodules sel sub pfx).removedPaths ∧
    (classify_submodules sel sub pfx).newPaths ∪
      (classify_submodules sel sub pfx).updatedPaths ∪
      (classify_submodules sel sub pfx).removedPaths =
      sel ∪ sub.filter (fun p => pfx.isPrefixOf p = true) := by
  refine ⟨?_, ?_, ?_, ?_⟩
  · rw [Finset.disjoint_left]
    intro a ha hb
    simp only [classify_submodules, Finset.mem_sdiff, Finset.mem_inter] at ha hb
    exact ha.2 hb.2
  · rw [Finset.disjoint_left]
    intro a ha hb
    simp only [classify_submodules, Finset.mem_sdiff, Finset.mem_filter] at ha hb
    exact hb.1.2 ha.1
  · rw [Finset.disjoint_left]
    intro a ha hb
    simp only [classify_submodules, Finset.mem_inter, Finset.mem_sdiff,
      Finset.mem_filter] at ha hb
    exact hb.1.2 ha.1
  · ext a
    simp only [classify_submodules, Finset.mem_union, Finset.mem_sdiff,
      Finset.mem_inter, Finset.mem_filter]
    tauto

/-- C5: `checkout_to_version` succeeds without retry when the direct
resolution succeeds; retries as `origin/<version>` exactly when the
direct attempt fails with class `Reference` and code `NotFound`; and
propagates any other error unchanged. -/
theorem checkout_version_fallback (repo : SubrepoEnv) (version : String) (co : Bool) :
    (checkout_to_spec repo version co = .ok () →
      checkout_to_version repo version co = .ok ()) ∧
    (∀ e, checkout_to_spec repo version co = .error e →
      (e.cls = GitErrorClass.reference ∧ e.code = GitErrorCode.notFound →
        checkout_to_version repo version co =
          checkout_to_spec repo ("origin/" ++ version) co) ∧
      (¬(e.cls = GitErrorClass.reference ∧ e.code = GitErrorCode.notFound) →
        checkout_to_version repo version co = .error e)) := by
  refine ⟨fun hok => ?_, fun e he => ⟨fun hc => ?_, fun hc => ?_⟩⟩
  · unfold checkout_to_version
    rw [hok]
  · unfold checkout_to_version
    rw [he]
    exact if_pos hc
  · unfold checkout_to_version
    rw [he]
    exact if_neg hc

/-- C5 witness: in `demoSubrepo` only `origin/main` resolves, so `main`
goes through the fallback; in `demoSubrepoNetFail` the network error
propagates unchanged. -/
theorem checkout_version_fallback_witness :
    checkout_to_version demoSubrepo "main" true =
      checkout_to_spec demoSubrepo "origin/main" true ∧
    checkout_to_version demoSubrepoNetFail "main" true =
      .error ⟨GitErrorClass.net, GitErrorCode.genericError⟩ := by
  constructor
  · exact ((checkout_version_fallback demoSubrepo "main" true).2
      ⟨GitErrorClass.reference, GitErrorCode.notFound⟩ rfl).1 ⟨rfl, rfl⟩
  · exact ((checkout_version_fallback demoSubrepoNetFail "main" true).2
      ⟨GitErrorClass.net, GitErrorCode.genericError⟩ rfl).2 (by simp)

/-- C9: every line whose trimmed form is a `[submodule ...]` header
containing the target path as a substring is removed by
`manually_clean_gitmodules`'s line loop — including headers of unrelated
submodules whose name merely contains the path. -/
theorem manually_clean_removes_matching_sections (pathStr : String)
    (lines : List String) (inSec : Bool) (l : String)
    (hl : matchesSubmoduleHeader pathStr l = true) :
    l ∉ manually_clean_lines pathStr lines inSec := by
  induction lines generalizing inSec with
  | nil => simp [manually_clean_lines]
  | cons a rest ih =>
    unfold manually_clean_lines
    rcases ha : matchesSubmoduleHeader pathStr a with _ | _
    · simp only [Bool.false_eq_true, if_false]
      rcases hsec : (if inSec && strStartsWith (strTrim a) "[" then false else inSec)
        with _ | _
      · simp only [Bool.false_eq_true, if_false, List.mem_cons, not_or]
        refine ⟨fun heq => ?_, ih false⟩
        rw [heq] at hl
        rw [hl] at ha
        exact Bool.true_eq_false.mp ha
      · simp only [if_true]
        exact ih true
    · simp only [if_true]
      exact ih true

/-- C9 witness: removing path `foo` from `demoGitmodulesLines` also
deletes the header of the unrelated section `foobar`. -/
theorem manually_clean_removes_matching_sections_witness :
    "[submodule \"foobar\"]" ∉ manually_clean_lines "foo" demoGitmodulesLines false :=
  manually_clean_removes_matching_sections "foo" demoGitmodulesLines false
    "[submodule \"foobar\"]" (by decide)

/-- C10: when the path has no submodule registration, no `.gitmodules`
file, no modules directory and no working tree, every error branch of
`remove_submodule_rollback` is unreachable and it returns ok. -/
theorem rollback_of_noop_add_cannot_fail (env : FsEnv) (p : String) (e0 : Nat)
    (_hfind : env.findSubmodule = .error e0)
    (hgm : env.gitmodulesExists = false)
    (_hmod : env.modulesDirExists = false)
    (_hwt : env.worktreeExists = false) :
    remove_submodule_rollback env p = .ok () := by
  unfold remove_submodule_rollback update_gitmodules_file
  rw [hgm]
  simp

/-- C10 witness: the all-absent environment. -/
theorem rollback_of_noop_add_cannot_fail_witness :
    remove_submodule_rollback demoFsEnvNothing "p" = .ok () :=
  rollback_of_noop_add_cannot_fail demoFsEnvNothing "p" 5 rfl rfl rfl rfl

/-- C3 counterexample: with original executor error 1, if listing
submodules during the `.gitmodules` cleanup fails with error 2, `main`
surfaces the cleanup error alone — the original error is lost. -/
theorem rollback_error_masks_original_counterexample :
    handleOperationFailure 1 false demoCleanupListFails = .cleanupError 2 ∧
    mentionsOriginal (handleOperationFailure 1 false demoCleanupListFails) 1 = false := by
  constructor <;> rfl

/-- C3 amended: on a failing non-dry-run run, the surfaced error wraps
the original executor error provided the `.gitmodules` cleanup step's
`submodules()` listing and `fs::remove_file` calls do not fail;
per-entry removal errors and the tracker error are only logged. -/
theorem original_error_preserved_unless_cleanup_fails (orig : Nat) (env : CleanupEnv)
    (hlist : env.listSubmodulesErr = none) (hrm : env.removeFileErr = none) :
    handleOperationFailure orig false env = .rolledBack orig := by
  unfold handleOperationFailure
  rw [hlist, hrm]
  rcases env.gitmodulesExists with _ | _ <;> rcases env.submodulesEmpty with _ | _ <;> simp

/-- C3 amended witness: a cleanup environment whose tracker fails (error
7) but whose `.gitmodules` cleanup succeeds still reports the original
error 3. -/
theorem original_error_preserved_unless_cleanup_fails_witness :
    handleOperationFailure 3 false demoCleanupOk = .rolledBack 3 :=
  original_error_preserved_unless_cleanup_fails 3 demoCleanupOk rfl rfl

/-- Staging a path does not change the registered submodules. -/
theorem stageIndex_subs (st : HostState) (p : String) :
    (stageIndex st p).subs = st.subs := by
  unfold stageIndex
  split <;> rfl

/-- Rewriting one submodule's commit preserves which names `find?` can
resolve. -/
theorem isSome_find?_name_setCommit (l : List Submod) (n : String) (c : Nat) (nm : String) :
    ((l.map fun s => if s.name = n then { s with commit := c } else s).find?
        (fun s => s.name = nm)).isSome =
      (l.find? fun s => s.name = nm).isSome := by
  induction l with
  | nil => rfl
  | cons a rest ih =>
    have hname : (if a.name = n then { a with commit := c } else a).name = a.name := by
      split <;> rfl
    simp only [List.map_cons, List.find?, hname]
    cases hd : decide (a.name = nm)
    · exact ih
    · rfl

/-- Restoring one snapshot entry preserves which snapshot entries can be
restored afterwards. -/
theorem canRestore_restoreEntry (st : HostState) (e' e : SnapEntry) :
    canRestore (restoreEntry st e') e = canRestore st e := by
  unfold canRestore restoreEntry
  rw [stageIndex_subs]
  exact isSome_find?_name_setCommit st.subs e'.name e'.commit e.name

/-- C2 counterexample: in `demoHostOnlyB` no submodule named `a` exists,
so restoring the first snapshot entry of `demoSnapshotAB` fails; the
rollback aborts immediately with that single error — the second entry is
never attempted and submodule `b` stays at commit 9 instead of its
snapshotted commit 5, with no aggregate of unrestored entries. -/
theorem tracker_rollback_no_best_effort_counterexample :
    trackerRollback demoHostOnlyB demoSnapshotAB = (demoHostOnlyB, some 0) ∧
    ((trackerRollback demoHostOnlyB demoSnapshotAB).1.subs.find?
        (fun s => s.name = "b")).map Submod.commit = some 9 := by
  constructor <;> rfl

/-- C2 amended: `SubmoduleStateTracker::rollback` is not best-effort — it
restores entries in order up to the first entry whose submodule cannot be
resolved, then aborts with that entry's error, leaving every later entry
unattempted. -/
theorem tracker_rollback_aborts_on_first_failure (st : HostState)
    (pre post : List SnapEntry) (f : SnapEntry)
    (hpre : ∀ e ∈ pre, canRestore st e = true)
    (hf : canRestore st f = false) :
    trackerRollback st (pre ++ f :: post) = (pre.foldl restoreEntry st, some 0) := by
  induction pre generalizing st with
  | nil =>
    simp only [List.nil_append, List.foldl_nil]
    unfold trackerRollback
    have hn : st.subs.find? (fun s => s.name = f.name) = none := by
      unfold canRestore at hf
      simpa using hf
    rw [hn]
  | cons a pre' ih =>
    have ha : canRestore st a = true := hpre a (List.mem_cons_self a pre')
    obtain ⟨s, hs⟩ : ∃ s, st.subs.find? (fun x => x.name = a.name) = some s := by
      unfold canRestore at ha
      exact Option.isSome_iff_exists.mp ha
    simp only [List.cons_append, List.foldl_cons]
    unfold trackerRollback
    rw [hs]
    exact ih (restoreEntry st a)
      (fun e he => (canRestore_restoreEntry st a e).trans
        (hpre e (List.mem_cons_of_mem a he)))
      ((canRestore_restoreEntry st a f).trans hf)

/-- C2 amended witness: with `b` restorable first and `a` failing second,
the rollback restores `b` and then aborts. -/
theorem tracker_rollback_aborts_on_first_failure_witness :
    trackerRollback demoHostOnlyB demoSnapshotBA =
      ([⟨"b", "b", 5, "u"⟩].foldl restoreEntry demoHostOnlyB, some 0) :=
  tracker_rollback_aborts_on_first_failure demoHostOnlyB
    [⟨"b", "b", 5, "u"⟩] [] ⟨"a", "a", 5, "u"⟩ (by decide) (by decide)

/-- C1 counterexample: a non-dry-run run whose only operation is an
update of submodule `a` to URL `u2` failing at the fetch is rolled
back, yet the post-rollback state differs from the pre-run state — the
URL rewrite survives because the tracker restores only commits. -/
theorem rollback_not_fully_atomic_counterexample :
    (runMain demoHostOneSub demoFailingUpdateScript demoOpts).2 =
      RunResult.rolledBack 1 ∧
    (runMain demoHostOneSub demoFailingUpdateScript demoOpts).1 ≠ demoHostOneSub ∧
    (runMain demoHostOneSub demoFailingUpdateScript demoOpts).1 =
      ⟨[⟨"a", "a", "u2", 5⟩], some ["a"], ["a"], ["a"]⟩ := by
  refine ⟨rfl, ?_, rfl⟩
  decide

/-- The add loop under dry-run: no state change, no completed additions,
no error. -/
theorem processAdds_dryRun (st : HostState) (l : List AddOp) :
    processAdds true st l = (st, [], none) := by
  induction l with
  | nil => rfl
  | cons a rest ih => exact ih

/-- The update loop under dry-run: no state change, no error. -/
theorem processUpdates_dryRun (st : HostState) (l : List UpdateOp) :
    processUpdates true st l = (st, none) := by
  induction l with
  | nil => rfl
  | cons a rest ih => exact ih

/-- The remove loop under dry-run: no state change, no error. -/
theorem processRemoves_dryRun (st : HostState) (l : List RemoveOp) :
    processRemoves true st l = (st, none) := by
  induction l with
  | nil => rfl
  | cons a rest ih => exact ih

/-- C6: with the dry-run flag set the executor performs no state
mutation, records no completed additions, and succeeds; consequently the
run reports plain success and the rollback branch is never entered. -/
theorem dry_run_purity (st : HostState) (sc : OpsScript) (opts : OptsModel)
    (h : opts.dryRun = true) :
    process_submodule_operations st sc opts = (st, [], none) ∧
    runMain st sc opts = (st, RunResult.ok) := by
  have hp : process_submodule_operations st sc opts = (st, [], none) := by
    unfold process_submodule_operations
    rw [h, processAdds_dryRun]
    cases hsk : opts.skipExisting <;> cases hsy : opts.syncSelection <;>
      simp [processUpdates_dryRun, processRemoves_dryRun]
  refine ⟨hp, ?_⟩
  unfold runMain
  rw [hp]

/-- C6 witness: a dry run over a host with one submodule and a failing
add list changes nothing and reports success. -/
theorem dry_run_purity_witness :
    process_submodule_operations demoHostOneSub ⟨demoFailingAdds, [], []⟩ demoDryOpts =
      (demoHostOneSub, [], none) ∧
    runMain demoHostOneSub ⟨demoFailingAdds, [], []⟩ demoDryOpts =
      (demoHostOneSub, RunResult.ok) :=
  dry_run_purity demoHostOneSub ⟨demoFailingAdds, [], []⟩ demoDryOpts rfl

/-- C7: when the adds before `op` succeed and `op` fails after its
registration call, the add loop returns with `op.path` appended to the
completed-additions list — the partially-created entry is recorded for
rollback before the error propagates. -/
theorem failing_add_recorded_for_rollback (st : HostState) (pre post : List AddOp)
    (op : AddOp) (hpre : ∀ o ∈ pre, o.outcome = AddOutcome.ok)
    (hop : failsAfterRegistration op.outcome = true) :
    ∃ st' e, processAdds false st (pre ++ op :: post) =
      (st', pre.map AddOp.path ++ [op.path], some e) := by
  induction pre generalizing st with
  | nil =>
    cases op with
    | mk path url newCommit outcome =>
      cases outcome with
      | ok => simp [failsAfterRegistration] at hop
      | failRegister e => simp [failsAfterRegistration] at hop
      | failOpen e => exact ⟨_, e, rfl⟩
      | failFetch e => exact ⟨_, e, rfl⟩
      | failCheckout e => exact ⟨_, e, rfl⟩
      | failFinalize e => exact ⟨_, e, rfl⟩
  | cons a pre' ih =>
    have ha : a.outcome = AddOutcome.ok := hpre a (List.mem_cons_self a pre')
    cases a with
    | mk ap au ac ao =>
      cases ha
      obtain ⟨st', e, hr⟩ :=
        ih (applyAddOp st ⟨ap, au, ac, AddOutcome.ok⟩).1
          (fun o ho => hpre o (List.mem_cons_of_mem _ ho))
      refine ⟨st', e, ?_⟩
      simp only [applyAddOp] at hr
      simp only [List.cons_append, List.map_cons, processAdds, applyAddOp,
        Bool.false_eq_true, if_false, List.append_eq]
      rw [hr]

/-- C7 witness: in `demoFailingAdds` the first add succeeds and the
second fails at the fetch (after registration); the completed-additions
list ends with the failing path `p2`. -/
theorem failing_add_recorded_for_rollback_witness :
    ∃ st' e, processAdds false emptyHostState demoFailingAdds =
      (st', ["p1", "p2"], some e) :=
  failing_add_recorded_for_rollback emptyHostState
    [⟨"p1", "url1", 3, AddOutcome.ok⟩] [] ⟨"p2", "url2", 4, AddOutcome.failFetch 2⟩
    (by decide) (by decide)

/-- C8: with at most one filter supplied, if every filter entry is a
declared key, selection returns (`only` if present, else all declared
keys) minus `ignore`; otherwise it fails with a not-found error carrying
every unknown entry at once. -/
theorem selector_contract (allKeys : Finset GPath) (only ignore : Option (Finset GPath))
    (hboth : only = none ∨ ignore = none) :
    ((only.getD ∅ ∪ ignore.getD ∅) ⊆ allKeys →
      selectRepos allKeys only ignore =
        .ok (only.getD allKeys \ ignore.getD ∅)) ∧
    (¬((only.getD ∅ ∪ ignore.getD ∅) ⊆ allKeys) →
      selectRepos allKeys only ignore =
        .error (.notFound ((only.getD ∅ ∪ ignore.getD ∅) \ allKeys))) := by
  rcases only with _ | o
  · rcases ignore with _ | i
    · constructor
      · intro _
        simp [selectRepos, check_subset, Bind.bind, Except.bind, pure, Except.pure]
      · intro h
        exact absurd (by simp) h
    · constructor
      · intro hsub
        have hi : i ⊆ allKeys := by simpa using hsub
        simp [selectRepos, check_subset, hi, Bind.bind, Except.bind, pure, Except.pure,
          Finset.sdiff_idem]
      · intro hns
        have hi : ¬ i ⊆ allKeys := by simpa using hns
        simp [selectRepos, check_subset, hi, Bind.bind, Except.bind]
  · rcases ignore with _ | i
    · constructor
      · intro hsub
        have ho : o ⊆ allKeys := by simpa using hsub
        simp [selectRepos, check_subset, check_disjoint, ho, Bind.bind, Except.bind,
          pure, Except.pure]
      · intro hns
        have ho : ¬ o ⊆ allKeys := by simpa using hns
        simp [selectRepos, check_subset, ho, Bind.bind, Except.bind]
    · rcases hboth with h | h <;> simp at h

/-- C8 witness: `only = a` over declared keys a and b selects exactly a;
`only = c, d` fails reporting both unknown entries. -/
theorem selector_contract_witness :
    selectRepos demoKeys (some demoOnly) none = .ok (demoOnly \ ∅) ∧
    selectRepos demoKeys (some demoBadOnly) none =
      .error (.notFound ((demoBadOnly ∪ ∅) \ demoKeys)) := by
  constructor
  · exact (selector_contract demoKeys (some demoOnly) none (Or.inr rfl)).1 (by decide)
  · exact (selector_contract demoKeys (some demoBadOnly) none (Or.inr rfl)).2 (by decide)

/-- `artifactsWithin` is monotone in the key list. -/
theorem artifactsWithin_mono (st : HostState) (c c' : List String)
    (h : artifactsWithin st c) (hsub : ∀ x ∈ c, x ∈ c') : artifactsWithin st c' := by
  obtain ⟨h1, h2, h3, h4⟩ := h
  refine ⟨fun s hs => hsub _ (h1 s hs), ?_, fun q hq => hsub _ (h3 q hq),
    fun w hw => hsub _ (h4 w hw)⟩
  rcases h2 with h2 | ⟨secs, hg, hne, hsecs⟩
  · exact Or.inl h2
  · exact Or.inr ⟨secs, hg, hne, fun g hgm => hsub _ (hsecs g hgm)⟩

/-- Registering a submodule at path `p` keeps all artifacts within the
key list extended by `p`. -/
theorem artifactsWithin_register (st : HostState) (c : List String) (u p : String)
    (h : artifactsWithin st c) : artifactsWithin (registerSubmodule st u p) (c ++ [p]) := by
  obtain ⟨h1, h2, h3, h4⟩ := h
  refine ⟨?_, ?_, ?_, ?_⟩
  · intro s hs
    rcases List.mem_append.mp hs with hs | hs
    · exact List.mem_append_left _ (h1 s hs)
    · rw [List.mem_singleton.mp hs]
      simp
  · right
    refine ⟨st.gitmodules.getD [] ++ [p], rfl, by simp, ?_⟩
    intro g hg
    rcases List.mem_append.mp hg with hg | hg
    · rcases h2 with h2 | ⟨secs, hgm, _, hsecs⟩
      · rw [h2] at hg
        simp at hg
      · rw [hgm] at hg
        exact List.mem_append_left _ (hsecs g hg)
    · rw [List.mem_singleton.mp hg]
      simp
  · intro q hq
    exact List.mem_append_left _ (h3 q hq)
  · intro w hw
    rcases List.mem_append.mp hw with hw | hw
    · exact List.mem_append_left _ (h4 w hw)
    · rw [List.mem_singleton.mp hw]
      simp

/-- Rewriting a commit moves no artifact out of the key list. -/
theorem artifactsWithin_setSubCommit (st : HostState) (c : List String) (p : String)
    (k : Nat) (h : artifactsWithin st c) : artifactsWithin (setSubCommit st p k) c := by
  obtain ⟨h1, h2, h3, h4⟩ := h
  refine ⟨?_, h2, h3, h4⟩
  intro s hs
  simp only [setSubCommit, List.mem_map] at hs
  obtain ⟨t, ht, hts⟩ := hs
  have hpath : s.path = t.path := by
    subst hts
    split <;> rfl
  rw [hpath]
  exact h1 t ht

/-- Staging a path already in the key list preserves the invariant. -/
theorem artifactsWithin_stageIndex (st : HostState) (c : List String) (p : String)
    (hp : p ∈ c) (h : artifactsWithin st c) : artifactsWithin (stageIndex st p) c := by
  obtain ⟨h1, h2, h3, h4⟩ := h
  unfold stageIndex
  split
  · exact ⟨h1, h2, h3, h4⟩
  · refine ⟨h1, h2, ?_, h4⟩
    intro q hq
    rcases List.mem_append.mp hq with hq | hq
    · exact h3 q hq
    · rw [List.mem_singleton.mp hq]
      exact hp

/-- One add, whatever its outcome, keeps all artifacts within the key
list extended by its path. -/
theorem artifactsWithin_applyAddOp (st : HostState) (c : List String) (op : AddOp)
    (h : artifactsWithin st c) : artifactsWithin (applyAddOp st op).1 (c ++ [op.path]) := by
  have hmono : artifactsWithin st (c ++ [op.path]) :=
    artifactsWithin_mono st c _ h (fun x hx => List.mem_append_left _ hx)
  cases op with
  | mk p u k oc =>
    cases oc with
    | ok =>
        exact artifactsWithin_stageIndex _ _ p (by simp)
          (artifactsWithin_setSubCommit _ _ p k (artifactsWithin_register st c u p h))
    | failRegister e => exact hmono
    | failOpen e => exact artifactsWithin_register st c u p h
    | failFetch e => exact artifactsWithin_register st c u p h
    | failCheckout e => exact artifactsWithin_register st c u p h
    | failFinalize e =>
        exact artifactsWithin_setSubCommit _ _ p k (artifactsWithin_register st c u p h)

/-- Step equation of the add loop for a successful add. -/
theorem processAdds_cons_ok (st s1 : HostState) (op : AddOp) (rest : List AddOp)
    (h : applyAddOp st op = (s1, none)) :
    processAdds false st (op :: rest) =
      ((processAdds false s1 rest).1, op.path :: (processAdds false s1 rest).2.1,
        (processAdds false s1 rest).2.2) := by
  cases op with
  | mk p u k oc =>
    cases oc with
    | ok =>
        have h1 : (applyAddOp st ⟨p, u, k, AddOutcome.ok⟩).1 = s1 := by rw [h]
        subst h1
        rfl
    | failRegister e => exact absurd (congrArg Prod.snd h) (by simp [applyAddOp])
    | failOpen e => exact absurd (congrArg Prod.snd h) (by simp [applyAddOp])
    | failFetch e => exact absurd (congrArg Prod.snd h) (by simp [applyAddOp])
    | failCheckout e => exact absurd (congrArg Prod.snd h) (by simp [applyAddOp])
    | failFinalize e => exact absurd (congrArg Prod.snd h) (by simp [applyAddOp])

/-- Step equation of the add loop for a failing add. -/
theorem processAdds_cons_err (st s1 : HostState) (op : AddOp) (rest : List AddOp)
    (e : Nat) (h : applyAddOp st op = (s1, some e)) :
    processAdds false st (op :: rest) = (s1, [op.path], some e) := by
  cases op with
  | mk p u k oc =>
    cases oc with
    | ok => exact absurd (congrArg Prod.snd h) (by simp [applyAddOp])
    | failRegister e' =>
        obtain ⟨h1, h2⟩ := Prod.mk.injEq .. |>.mp h
        obtain rfl : e' = e := Option.some.injEq .. |>.mp h2
        subst h1
        rfl
    | failOpen e' =>
        obtain ⟨h1, h2⟩ := Prod.mk.injEq .. |>.mp h
        obtain rfl : e' = e := Option.some.injEq .. |>.mp h2
        subst h1
        rfl
    | failFetch e' =>
        obtain ⟨h1, h2⟩ := Prod.mk.injEq .. |>.mp h
        obtain rfl : e' = e := Option.some.injEq .. |>.mp h2
        subst h1
        rfl
    | failCheckout e' =>
        obtain ⟨h1, h2⟩ := Prod.mk.injEq .. |>.mp h
        obtain rfl : e' = e := Option.some.injEq .. |>.mp h2
        subst h1
        rfl
    | failFinalize e' =>
        obtain ⟨h1, h2⟩ := Prod.mk.injEq .. |>.mp h
        obtain rfl : e' = e := Option.some.injEq .. |>.mp h2
        subst h1
        rfl

/-- The add loop keeps all artifacts within the starting key list
extended by the completed-additions it returns. -/
theorem artifactsWithin_processAdds (adds : List AddOp) (st : HostState)
    (c : List String) (h : artifactsWithin st c) :
    artifactsWithin (processAdds false st adds).1
      (c ++ (processAdds false st adds).2.1) := by
  induction adds generalizing st c with
  | nil =>
    show artifactsWithin st (c ++ [])
    rw [List.append_nil]
    exact h
  | cons op rest ih =>
    rcases hap : applyAddOp st op with ⟨st1, oe⟩
    have hst1 : artifactsWithin st1 (c ++ [op.path]) := by
      have hh := artifactsWithin_applyAddOp st c op h
      rwa [hap] at hh
    cases oe with
    | none =>
      rw [processAdds_cons_ok st st1 op rest hap]
      have hrest := ih st1 (c ++ [op.path]) hst1
      apply artifactsWithin_mono _ _ _ hrest
      intro x hx
      simp only [List.mem_append, List.mem_cons, List.mem_singleton] at hx ⊢
      tauto
    | some e =>
      rw [processAdds_cons_err st st1 op rest e hap]
      exact hst1

/-- Removing a section from a present `.gitmodules` either deletes the
file or leaves a nonempty list of surviving sections, none equal to the
removed path. -/
theorem removeGitmodulesSection_within (secs : List String) (nm p : String) :
    removeGitmodulesSection (some secs) nm p = none ∨
    ∃ r, removeGitmodulesSection (some secs) nm p = some r ∧ r ≠ [] ∧
      ∀ g ∈ r, g ∈ secs ∧ ¬ g = p := by
  simp only [removeGitmodulesSection]
  by_cases hempty :
      (secs.filter fun s => !(s = nm : Bool) && !(s = p : Bool)).isEmpty = true
  · left
    rw [if_pos hempty]
  · right
    refine ⟨_, by rw [if_neg hempty], ?_, ?_⟩
    · intro hnil
      rw [hnil] at hempty
      exact hempty rfl
    · intro g hg
      obtain ⟨hgmem, hgf⟩ := List.mem_filter.mp hg
      refine ⟨hgmem, fun hgp => ?_⟩
      rw [hgp] at hgf
      simp at hgf

/-- Rolling back every key of a list containing all of the state's
artifacts leaves the empty host. -/
theorem foldl_remove_rollback_empties (c : List String) (st : HostState)
    (h : artifactsWithin st c) :
    c.foldl remove_submodule_rollback_state st = emptyHostState := by
  induction c generalizing st with
  | nil =>
    cases st with
    | mk a b d e =>
      obtain ⟨h1, h2, h3, h4⟩ := h
      have hsubs : a = [] :=
        List.eq_nil_iff_forall_not_mem.mpr fun s hs => by
          cases List.not_mem_nil _ (h1 s hs)
      have hidx : d = [] :=
        List.eq_nil_iff_forall_not_mem.mpr fun q hq => by
          cases List.not_mem_nil _ (h3 q hq)
      have hwt : e = [] :=
        List.eq_nil_iff_forall_not_mem.mpr fun w hw => by
          cases List.not_mem_nil _ (h4 w hw)
      have hgm : b = none := by
        rcases h2 with h2 | ⟨secs, hgm, hne, hsecs⟩
        · exact h2
        · cases secs with
          | nil => exact absurd rfl hne
          | cons g gs => cases List.not_mem_nil _ (hsecs g (List.mem_cons_self g gs))
      subst hsubs hidx hwt hgm
      rfl
  | cons p c' ih =>
    apply ih
    obtain ⟨h1, h2, h3, h4⟩ := h
    refine ⟨?_, ?_, ?_, ?_⟩
    · intro s hs
      simp only [remove_submodule_rollback_state, List.mem_filter] at hs
      obtain ⟨hs, hne⟩ := hs
      rcases List.mem_cons.mp (h1 s hs) with heq | hmem
      · rw [heq] at hne
        simp at hne
      · exact hmem
    · rcases h2 with h2 | ⟨secs, hgm, hne, hsecs⟩
      · left
        simp only [remove_submodule_rollback_state]
        rw [h2]
        rfl
      · have hgmval : (remove_submodule_rollback_state st p).gitmodules =
            removeGitmodulesSection (some secs)
              (((st.subs.find? fun s => s.path = p).map Submod.name).getD p) p := by
          simp only [remove_submodule_rollback_state]
          rw [hgm]
        rcases removeGitmodulesSection_within secs
            (((st.subs.find? fun s => s.path = p).map Submod.name).getD p) p with
          hnone | ⟨r, hr, hrne, hrmem⟩
        · left
          rw [hgmval, hnone]
        · right
          refine ⟨r, by rw [hgmval, hr], hrne, ?_⟩
          intro g hg
          obtain ⟨hgmem, hgp⟩ := hrmem g hg
          rcases List.mem_cons.mp (hsecs g hgmem) with heq | hmem
          · exact absurd heq hgp
          · exact hmem
    · intro q hq
      simp only [remove_submodule_rollback_state, List.mem_filter] at hq
      obtain ⟨hq, hne⟩ := hq
      rcases List.mem_cons.mp (h3 q hq) with heq | hmem
      · rw [heq] at hne
        simp at hne
      · exact hmem
    · intro w hw
      simp only [remove_submodule_rollback_state, List.mem_filter] at hw
      obtain ⟨hw, hne⟩ := hw
      rcases List.mem_cons.mp (h4 w hw) with heq | hmem
      · rw [heq] at hne
        simp at hne
      · exact hmem

/-- C1 amended: starting from a host with no registered submodules and no
`.gitmodules` file, any non-dry-run run whose add phase fails is rolled
back to exactly the pre-run state: nothing registered, no working-tree
directories, no `.gitmodules`, empty index. (Full-state atomicity does
not hold in general — see the update counterexample.) -/
theorem rollback_restores_empty_host (adds : List AddOp) (upds : List UpdateOp)
    (rems : List RemoveOp) (opts : OptsModel) (e : Nat)
    (hdry : opts.dryRun = false)
    (hfail : (processAdds false emptyHostState adds).2.2 = some e) :
    runMain emptyHostState ⟨adds, upds, rems⟩ opts = (emptyHostState, .rolledBack e) := by
  have hempty : artifactsWithin emptyHostState [] := by
    refine ⟨?_, Or.inl rfl, ?_, ?_⟩ <;> simp [emptyHostState]
  have hart := artifactsWithin_processAdds adds emptyHostState [] hempty
  rcases hp : processAdds false emptyHostState adds with ⟨st1, c1, oe⟩
  rw [hp] at hfail hart
  have hoe : oe = some e := hfail
  subst hoe
  have hfold : c1.foldl remove_submodule_rollback_state st1 = emptyHostState :=
    foldl_remove_rollback_empties c1 st1 hart
  have hproc : process_submodule_operations emptyHostState ⟨adds, upds, rems⟩ opts
      = (st1, c1, some e) := by
    unfold process_submodule_operations
    rw [hdry, hp]
  unfold runMain
  simp only [hproc, hdry, Bool.false_eq_true, if_false]
  rw [hfold]
  rfl

/-- C1 amended witness: the two-entry failing add list over the empty
host rolls back to exactly the empty host. -/
theorem rollback_restores_empty_host_witness :
    runMain emptyHostState ⟨demoFailingAdds, [], []⟩ demoOpts =
      (emptyHostState, RunResult.rolledBack 2) :=
  rollback_restores_empty_host demoFailingAdds [] [] demoOpts 2 rfl (by decide)
